import Mathlib

/-!
Shallow embedding of `src/main.cpp` of the `autofocus` frame-sharpness tool.

Strings (the `u8string` of an `std::filesystem::path`) are modelled as
`List Char`; machine integers (`std::size_t`) as `Nat` with the 64-bit
bound made explicit where `std::from_chars` can report overflow.  The
C++ code signals every failure by throwing `std::runtime_error` with a
distinguishing message; the distinct messages are modelled as the
constructors of `RunError`.
-/

/-- Error kinds of the tool, one per distinct `throw` site of `main.cpp`. -/
inductive RunError : Type
  | invalidDirectory
  | invalidFileName
  | frameNumberParse
  | imageDecode
  | outputWrite
deriving DecidableEq, Repr

/-- Model of `std::filesystem::path::filename` for POSIX-style paths:
the component after the last directory separator. -/
def filename_of (s : List Char) : List Char :=
  (s.reverse.takeWhile (fun c => c ≠ '/')).reverse

/-- Model of `std::filesystem::path::extension().u8string()`: the suffix of
the filename starting at its last period, except that the paths `.` and
`..` and a filename whose only period is its first character have an
empty extension. -/
def extension_of (s : List Char) : List Char :=
  let f := filename_of s
  if f = ['.'] ∨ f = ['.', '.'] then []
  else
    let tw := f.reverse.takeWhile (fun c => c ≠ '.')
    if tw.length = f.length ∨ tw.length + 1 = f.length then []
    else '.' :: tw.reverse

/-- Numeric value of a decimal digit character. -/
def digitVal (c : Char) : Nat := c.toNat - 48

/-- Value accumulated by `std::from_chars` over a run of decimal digits. -/
def digitsToNat (ds : List Char) : Nat :=
  ds.foldl (fun acc c => 10 * acc + digitVal c) 0

/-- Largest value of `std::size_t` on the (64-bit) target. -/
def size_t_max : Nat := 2 ^ 64 - 1

/-- Error conditions of `std::from_chars`. -/
inductive from_chars_ec : Type
  | invalid_argument
  | result_out_of_range
deriving DecidableEq, Repr

/-- Model of `std::from_chars(first, last, value)` for an unsigned 64-bit
`value` in base 10: it consumes the maximal run of decimal digits at the
front of the range; an empty run is `invalid_argument`, a run whose value
exceeds `size_t_max` is `result_out_of_range`, otherwise it succeeds with
the run's value (unconsumed characters after the run are not an error). -/
def from_chars (s : List Char) : Except from_chars_ec Nat :=
  let ds := s.takeWhile Char.isDigit
  if ds.isEmpty then .error .invalid_argument
  else if size_t_max < digitsToNat ds then .error .result_out_of_range
  else .ok (digitsToNat ds)

/-- Model of `extract_frame_number` (`main.cpp` lines 43-74): reject names
not longer than `extension length + frame_number_digits`, then run
`std::from_chars` from `str.length() - extensionSize - frame_number_digits`
to the end of the string, failing iff `ec != std::errc{}`. -/
def extract_frame_number (s : List Char) (frame_number_digits : Nat) :
    Except RunError Nat :=
  let extensionSize := (extension_of s).length
  if s.length ≤ extensionSize + frame_number_digits then
    .error .invalidFileName
  else
    let start_index := s.length - extensionSize - frame_number_digits
    match from_chars (s.drop start_index) with
    | .error _ => .error .frameNumberParse
    | .ok frame_number => .ok frame_number

/-- The maximal run of decimal digits starting at the frame-number field
(character `str.length() - extensionSize - frame_number_digits`); used to
characterise what `extract_frame_number` actually parses. -/
def frame_field_digits (s : List Char) (frame_number_digits : Nat) : List Char :=
  (s.drop (s.length - (extension_of s).length - frame_number_digits)).takeWhile
    Char.isDigit

/-- Clamp to the range of a 16-bit signed integer: the `saturate_cast`
applied by the image library when writing filter results into a `CV_16S`
matrix. -/
def saturate16 (v : Int) : Int := max (-32768) (min 32767 v)

/-- Result of frame analysis (`struct frame_info`).  The `sharpness`
field is a `double` in the source, but every value it ever holds is the
exact integer `max_val` reported over a 16-bit signed matrix, so it is
modelled as `Int`. -/
structure frame_info : Type where
  number : Nat
  sharpness : Int
deriving DecidableEq, Repr

section pipeline

-- Pixel type of a decoded (BGR colour) image; opaque to this program.
variable {Pix : Type}

-- External collaborator `cv::GaussianBlur` with a fixed 3x3 kernel, an
-- opaque numeric operator on colour images.
variable (gaussianBlur : List (List Pix) → List (List Pix))

-- External collaborator `cv::cvtColor(..., COLOR_BGR2GRAY)`, an opaque
-- conversion to an 8-bit single-channel intensity grid.
variable (cvtColorGray : List (List Pix) → List (List Nat))

-- External collaborator `cv::Laplacian` before depth conversion: the
-- exact discrete second-derivative response, an opaque numeric operator.
variable (laplacianRaw : List (List Nat) → List (List Int))

-- Rendering of the `double` sharpness by `fmt::format("{}", ...)`, an
-- opaque external formatting routine.
variable (showDouble : Int → List Char)

/-- The Laplacian response as stored by `cv::Laplacian(..., CV_16S, ...)`:
each raw response value is `saturate_cast`-ed into the 16-bit signed
destination matrix. -/
def laplacian16S (g : List (List Nat)) : List (List Int) :=
  (laplacianRaw g).map (fun row => row.map saturate16)

/-- Model of `cv::minMaxLoc`: the global minimum and maximum value over
all entries of the matrix (the locations are unused by this program). -/
def minMaxLoc (g : List (List Int)) : Int × Int :=
  match g.flatten with
  | [] => (0, 0)
  | v :: vs => (vs.foldl min v, vs.foldl max v)

/-- Model of `read_image` (`main.cpp` lines 79-94): the decoded matrix of
a file, failing when decoding failed or produced zero columns or rows
(`cv::imread` yields an empty matrix in both cases, modelled as an empty
or empty-rowed grid). -/
def read_image (image : List (List Pix)) : Except RunError (List (List Pix)) :=
  if (image.headD []).length = 0 ∨ image.length = 0 then .error .imageDecode
  else .ok image

/-- Model of `calculate_sharpness` (`main.cpp` lines 99-123) on an already
decoded image: Gaussian blur, grayscale conversion, Laplacian into a
`CV_16S` matrix, then the `max_val` of `cv::minMaxLoc`. -/
def calculate_sharpness (image : List (List Pix)) : Int :=
  let blurred := gaussianBlur image
  let gray := cvtColorGray blurred
  let filtered := laplacian16S laplacianRaw gray
  (minMaxLoc filtered).2

/-- One directory entry: its path string and the matrix `cv::imread`
produces for it (empty when the bytes do not decode). -/
structure entry (Pix : Type) : Type where
  path : List Char
  image : List (List Pix)

/-- Model of `analyse_frame` (`main.cpp` lines 128-134): aggregate
initialisation evaluates the `.number` initialiser, hence
`extract_frame_number` (with the default width 5), strictly before the
`.sharpness` initialiser, hence before the image is read and analysed. -/
def analyse_frame (e : entry Pix) : Except RunError frame_info := do
  let number ← extract_frame_number e.path 5
  let image ← read_image e.image
  pure { number := number, sharpness :=
    calculate_sharpness gaussianBlur cvtColorGray laplacianRaw image }

/-- Model of `analyse_frames` (`main.cpp` lines 139-166).  The directory
argument is `none` when `std::filesystem::is_directory` is false, and
otherwise carries the entries in (unspecified) enumeration order.  The
`std::sort` with comparator `lhs.number < rhs.number` promises exactly a
permutation of the input that is sorted with respect to the comparator,
i.e. non-decreasing in `number`; it is modelled by a concrete sort with
the matching non-strict order. -/
def analyse_frames (dir : Option (List (entry Pix))) :
    Except RunError (List frame_info) := do
  match dir with
  | none => .error .invalidDirectory
  | some entries => do
      let result ← entries.mapM
        (analyse_frame gaussianBlur cvtColorGray laplacianRaw)
      pure (List.insertionSort (fun lhs rhs => lhs.number ≤ rhs.number) result)

end pipeline

/-- Decimal digit character of `d % 10`. -/
def digitCharOf (d : Nat) : Char :=
  match d % 10 with
  | 0 => '0' | 1 => '1' | 2 => '2' | 3 => '3' | 4 => '4'
  | 5 => '5' | 6 => '6' | 7 => '7' | 8 => '8' | _ => '9'

/-- Digit-by-digit worker for `natDigits`; the first argument is fuel
bounding the recursion depth (any fuel above the digit count agrees). -/
def natDigitsGo : Nat → Nat → List Char
  | 0, _ => []
  | fuel + 1, n =>
      if n < 10 then [digitCharOf n]
      else natDigitsGo fuel (n / 10) ++ [digitCharOf n]

/-- Decimal rendering of a `std::size_t` by `fmt::format("{}", ...)`. -/
def natDigits (n : Nat) : List Char := natDigitsGo (n + 1) n

section writer

variable {Pix : Type}
variable (gaussianBlur : List (List Pix) → List (List Pix))
variable (cvtColorGray : List (List Pix) → List (List Nat))
variable (laplacianRaw : List (List Nat) → List (List Int))
variable (showDouble : Int → List Char)

/-- One output line, `fmt::format("{}\t{}\n", frame.number, frame.sharpness)`
(`main.cpp` line 188). -/
def format_line (f : frame_info) : List Char :=
  natDigits f.number ++ '\t' :: (showDouble f.sharpness ++ ['\n'])

/-- Content written by the loop of `write_results` (`main.cpp` lines
186-189) once the output stream is open: the lines of the given frames,
in the given order. -/
def write_results (frames : List frame_info) : List Char :=
  (frames.map (format_line showDouble)).flatten

/-- Split a text into its newline-terminated lines (a final unterminated
fragment counts as a line; used only to state properties of the output). -/
def splitLinesAux : List Char → List Char → List (List Char)
  | [], acc => if acc = [] then [] else [acc.reverse]
  | c :: cs, acc =>
      if c = '\n' then acc.reverse :: splitLinesAux cs []
      else splitLinesAux cs (c :: acc)

/-- Lines of a text, in order. -/
def splitLines (s : List Char) : List (List Char) := splitLinesAux s []

/-- Observable state of the filesystem as this program sees it: whether
the input path is a directory (and its entries), whether the output path
can be opened for writing, and the output file's current content
(`none` when the file does not exist). -/
structure FS (Pix : Type) : Type where
  dir : Option (List (entry Pix))
  outOpenable : Bool
  outFile : Option (List Char)

/-- Model of the `try` block of `main` (`main.cpp` lines 217-218):
`write_results(result_file, analyse_frames(frames_directory))` evaluates
the argument `analyse_frames(...)` to completion before `write_results`
is entered, so when collection throws, the output file is never opened
and keeps its prior state; otherwise `std::ofstream` creates/truncates
the file and the loop writes the formatted lines, and a failed open
(`!ofs`) throws with the file untouched by this program. -/
def main_run (fs : FS Pix) : Except RunError Unit × Option (List Char) :=
  match analyse_frames gaussianBlur cvtColorGray laplacianRaw fs.dir with
  | .error e => (.error e, fs.outFile)
  | .ok result =>
      if fs.outOpenable then
        (.ok (), some (write_results showDouble result))
      else (.error .outputWrite, fs.outFile)

end writer

/-- Sample blur stand-in (identity on grids) for concrete evaluations. -/
def sampleBlur : List (List Nat) → List (List Nat) := fun g => g

/-- Sample grayscale stand-in (identity on grids) for concrete evaluations. -/
def sampleGray : List (List Nat) → List (List Nat) := fun g => g

/-- Sample raw Laplacian stand-in for concrete evaluations. -/
def sampleLaplacian : List (List Nat) → List (List Int) :=
  fun g => g.map (fun row => row.map (fun v => (v : Int)))

/-- Sample sharpness rendering for concrete evaluations. -/
def sampleShowDouble : Int → List Char := fun v => natDigits v.toNat

/-! ### Helper lemmas -/

/-- Folding `max` over a list yields an element of the seed-extended list. -/
lemma foldl_max_mem (vs : List Int) (a : Int) : vs.foldl max a ∈ a :: vs := by
  induction vs generalizing a with
  | nil => simp
  | cons b bs ih =>
      have hstep : List.foldl max a (b :: bs) = List.foldl max (max a b) bs := rfl
      rw [hstep]
      rcases List.mem_cons.mp (ih (max a b)) with h1 | h1
      · rw [h1]
        rcases max_choice a b with h2 | h2 <;> rw [h2]
        · exact List.mem_cons_self _ _
        · exact List.mem_cons_of_mem _ (List.mem_cons_self _ _)
      · exact List.mem_cons_of_mem _ (List.mem_cons_of_mem _ h1)

/-- Folding `max` over a list bounds the seed and every element. -/
lemma foldl_max_le (vs : List Int) (a : Int) : ∀ v ∈ a :: vs, v ≤ vs.foldl max a := by
  induction vs generalizing a with
  | nil =>
      intro v hv
      rw [List.mem_singleton] at hv
      rw [hv]
      exact le_refl a
  | cons b bs ih =>
      intro v hv
      have hstep : List.foldl max a (b :: bs) = List.foldl max (max a b) bs := rfl
      rw [hstep]
      rcases List.mem_cons.mp hv with h1 | h1
      · calc v = a := h1
          _ ≤ max a b := le_max_left a b
          _ ≤ List.foldl max (max a b) bs :=
              ih (max a b) (max a b) (List.mem_cons_self _ _)
      · rcases List.mem_cons.mp h1 with h2 | h2
        · calc v = b := h2
            _ ≤ max a b := le_max_right a b
            _ ≤ List.foldl max (max a b) bs :=
                ih (max a b) (max a b) (List.mem_cons_self _ _)
        · exact ih (max a b) v (List.mem_cons_of_mem _ h2)

/-- Every character produced by `digitCharOf` is a decimal digit. -/
lemma digitCharOf_mem (d : Nat) :
    digitCharOf d ∈ ['0', '1', '2', '3', '4', '5', '6', '7', '8', '9'] := by
  unfold digitCharOf
  split <;> decide

/-- Every character produced by the rendering worker is a decimal digit. -/
lemma natDigitsGo_mem (fuel : Nat) :
    ∀ (n : Nat), ∀ c ∈ natDigitsGo fuel n,
      c ∈ ['0', '1', '2', '3', '4', '5', '6', '7', '8', '9'] := by
  induction fuel with
  | zero => intro n c hc; exact absurd hc (List.not_mem_nil c)
  | succ fuel ih =>
      intro n c hc
      rw [natDigitsGo] at hc
      by_cases h : n < 10
      · rw [if_pos h, List.mem_singleton] at hc
        rw [hc]; exact digitCharOf_mem n
      · rw [if_neg h, List.mem_append] at hc
        rcases hc with hc | hc
        · exact ih (n / 10) c hc
        · rw [List.mem_singleton] at hc
          rw [hc]; exact digitCharOf_mem n

/-- Every character of a rendered `Nat` is a decimal digit. -/
lemma natDigits_mem (n : Nat) :
    ∀ c ∈ natDigits n, c ∈ ['0', '1', '2', '3', '4', '5', '6', '7', '8', '9'] :=
  natDigitsGo_mem (n + 1) n

/-- A tab never occurs in a rendered `Nat`. -/
lemma tab_not_mem_natDigits (n : Nat) : '\t' ∉ natDigits n := by
  intro h
  have := natDigits_mem n '\t' h
  simp at this

/-- A newline never occurs in a rendered `Nat`. -/
lemma newline_not_mem_natDigits (n : Nat) : '\n' ∉ natDigits n := by
  intro h
  have := natDigits_mem n '\n' h
  simp at this

/-- Splitting off one newline-terminated line. -/
lemma splitLinesAux_line (l : List Char) :
    ∀ (r acc : List Char), '\n' ∉ l →
      splitLinesAux (l ++ '\n' :: r) acc = (acc.reverse ++ l) :: splitLinesAux r [] := by
  induction l with
  | nil =>
      intro r acc _
      simp [splitLinesAux]
  | cons c cs ih =>
      intro r acc hnl
      have hc : c ≠ '\n' := fun h => hnl (h ▸ List.mem_cons_self c cs)
      have hcs : '\n' ∉ cs := fun h => hnl (List.mem_cons_of_mem c h)
      have h1 : splitLinesAux ((c :: cs) ++ '\n' :: r) acc
          = splitLinesAux (cs ++ '\n' :: r) (c :: acc) := by
        simp [splitLinesAux, hc]
      rw [h1, ih r (c :: acc) hcs]
      simp

/-- Lines of a line-free chunk followed by a newline and a remainder. -/
lemma splitLines_line (l r : List Char) (h : '\n' ∉ l) :
    splitLines (l ++ '\n' :: r) = l :: splitLines r := by
  unfold splitLines
  rw [splitLinesAux_line l r [] h]
  simp

/-- Lines written by `write_results`, assuming the sharpness rendering
contains no newline: exactly one line per frame, in sequence order. -/
lemma splitLines_write_results (showDouble : Int → List Char)
    (frames : List frame_info)
    (hnl : ∀ f ∈ frames, '\n' ∉ showDouble f.sharpness) :
    splitLines (write_results showDouble frames)
      = frames.map (fun f => natDigits f.number ++ '\t' :: showDouble f.sharpness) := by
  induction frames with
  | nil => simp [write_results, splitLines, splitLinesAux]
  | cons f fs ih =>
      have hline : write_results showDouble (f :: fs)
          = (natDigits f.number ++ '\t' :: showDouble f.sharpness)
            ++ '\n' :: write_results showDouble fs := by
        simp [write_results, format_line]
      rw [hline]
      have hfree : '\n' ∉ natDigits f.number ++ '\t' :: showDouble f.sharpness := by
        intro hmem
        rcases List.mem_append.mp hmem with hm | hm
        · exact newline_not_mem_natDigits _ hm
        · rcases List.mem_cons.mp hm with hm | hm
          · exact absurd hm (by decide)
          · exact hnl f (List.mem_cons_self _ _) hm
      rw [splitLines_line _ _ hfree]
      rw [ih (fun g hg => hnl g (List.mem_cons_of_mem _ hg))]
      simp

/-- The first tab-delimited field of an output line is the frame number. -/
lemma takeWhile_first_field (n : Nat) (rest : List Char) :
    (natDigits n ++ '\t' :: rest).takeWhile (fun c => c ≠ '\t') = natDigits n := by
  rw [List.takeWhile_append_of_pos]
  · rw [List.takeWhile_cons_of_neg (by simp)]
    simp
  · intro c hc
    have := natDigits_mem n c hc
    simp only [List.mem_cons, List.not_mem_nil, or_false] at this
    rcases this with h | h | h | h | h | h | h | h | h | h <;> rw [h] <;> decide

/-- Every stored value of the `CV_16S` Laplacian matrix is a saturated
16-bit value. -/
lemma mem_laplacian16S (laplacianRaw : List (List Nat) → List (List Int))
    (g : List (List Nat)) (w : Int)
    (hw : w ∈ (laplacian16S laplacianRaw g).flatten) :
    ∃ u, w = saturate16 u := by
  rcases List.mem_flatten.mp hw with ⟨row, hrow, hmem⟩
  rcases List.mem_map.mp hrow with ⟨r, _, hr⟩
  rcases List.mem_map.mp (hr ▸ hmem) with ⟨u, _, hu⟩
  exact ⟨u, hu.symm⟩

/-- Saturated values lie in the signed 16-bit range. -/
lemma saturate16_range (v : Int) : -32768 ≤ saturate16 v ∧ saturate16 v ≤ 32767 := by
  unfold saturate16
  constructor
  · exact le_max_left _ _
  · exact max_le (by decide) (min_le_left _ _)

/-- A separator-free suffix is wholly part of the filename component. -/
lemma filename_of_append (pre mid : List Char) (hmid : '/' ∉ mid) :
    filename_of (pre ++ mid) = filename_of pre ++ mid := by
  unfold filename_of
  rw [List.reverse_append]
  rw [List.takeWhile_append_of_pos (by
    intro a ha
    have hm : a ∈ mid := List.mem_reverse.mp ha
    simp only [ne_eq, decide_eq_true_eq]
    exact fun h => hmid (h ▸ hm))]
  rw [List.reverse_append, List.reverse_reverse]

/-- The extension of `<pre><digits>.<rest>` is `.<rest>` whenever the
digit block is non-empty and `rest` contains neither a period nor a
separator. -/
lemma extension_of_structured (pre ds rest : List Char)
    (hds : ds ≠ []) (hdig : ∀ c ∈ ds, c.isDigit)
    (hrd : '.' ∉ rest) (hrs : '/' ∉ rest) :
    extension_of (pre ++ (ds ++ '.' :: rest)) = '.' :: rest := by
  have hmid : '/' ∉ ds ++ '.' :: rest := by
    intro h
    rcases List.mem_append.mp h with h | h
    · exact absurd (hdig _ h) (by decide)
    · rcases List.mem_cons.mp h with h | h
      · exact absurd h (by decide)
      · exact hrs h
  have hfile : filename_of (pre ++ (ds ++ '.' :: rest))
      = filename_of pre ++ (ds ++ '.' :: rest) :=
    filename_of_append pre (ds ++ '.' :: rest) hmid
  obtain ⟨c0, hc0⟩ := List.exists_mem_of_ne_nil ds hds
  have hc0d := hdig c0 hc0
  have hc0f : c0 ∈ filename_of pre ++ (ds ++ '.' :: rest) :=
    List.mem_append.mpr (Or.inr (List.mem_append.mpr (Or.inl hc0)))
  have hne1 : ¬(filename_of pre ++ (ds ++ '.' :: rest) = ['.']
      ∨ filename_of pre ++ (ds ++ '.' :: rest) = ['.', '.']) := by
    rintro (h | h) <;> rw [h] at hc0f
    · rw [List.mem_singleton] at hc0f
      rw [hc0f] at hc0d
      exact absurd hc0d (by decide)
    · simp only [List.mem_cons, List.not_mem_nil, or_false] at hc0f
      rcases hc0f with h2 | h2 <;> (rw [h2] at hc0d; exact absurd hc0d (by decide))
  have hrev : (filename_of pre ++ (ds ++ '.' :: rest)).reverse
      = rest.reverse ++ '.' :: (ds.reverse ++ (filename_of pre).reverse) := by
    simp [List.reverse_append]
  have htw : (filename_of pre ++ (ds ++ '.' :: rest)).reverse.takeWhile
      (fun c => c ≠ '.') = rest.reverse := by
    rw [hrev]
    rw [List.takeWhile_append_of_pos (by
      intro a ha
      have hm : a ∈ rest := List.mem_reverse.mp ha
      simp only [ne_eq, decide_eq_true_eq]
      exact fun h => hrd (h ▸ hm))]
    rw [List.takeWhile_cons_of_neg (by simp)]
    simp
  have hpos : 0 < ds.length := List.length_pos.mpr hds
  have hlen : ¬((rest.reverse).length
        = (filename_of pre ++ (ds ++ '.' :: rest)).length
      ∨ (rest.reverse).length + 1
        = (filename_of pre ++ (ds ++ '.' :: rest)).length) := by
    simp only [List.length_reverse, List.length_append, List.length_cons]
    omega
  simp only [extension_of]
  rw [hfile, htw, if_neg hne1, if_neg hlen, List.reverse_reverse]

/-! ### Claims -/

/-- C1: for every file name whose length is at most the extension length
plus the digit width `W`, `extract_frame_number` fails with the
`InvalidFileNameError` (name too short) error. -/
theorem extract_frame_number_short_name (s : List Char) (W : Nat)
    (h : s.length ≤ (extension_of s).length + W) :
    extract_frame_number s W = .error .invalidFileName := by
  simp only [extract_frame_number]
  rw [if_pos h]

/-- C1 witness: `FrameNumberParser("x.png", 5)` is in scope of the length
check and fails with `InvalidFileNameError`. -/
theorem extract_frame_number_short_name_witness :
    "x.png".toList.length ≤ (extension_of "x.png".toList).length + 5
    ∧ extract_frame_number "x.png".toList 5 = .error .invalidFileName :=
  ⟨by decide, extract_frame_number_short_name "x.png".toList 5 (by decide)⟩

/-- C2 counterexample: `"frame12abc.png"` passes the length check, its
5-character field immediately preceding the extension is `"12abc"`, which
contains non-digit characters, yet `extract_frame_number` succeeds with
value 12 instead of failing with `FrameNumberParseError`. -/
theorem extract_frame_number_field_counterexample :
    ("frame12abc.png".toList.drop 5).take 5 = "12abc".toList
    ∧ ¬(∀ c ∈ ("frame12abc.png".toList.drop 5).take 5, c.isDigit)
    ∧ extract_frame_number "frame12abc.png".toList 5 = .ok 12
    ∧ extract_frame_number "frame12abc.png".toList 5
        ≠ .error .frameNumberParse := by
  refine ⟨by decide, by decide, by rfl, ?_⟩
  intro hcontra
  have h12 : extract_frame_number "frame12abc.png".toList 5 = .ok 12 := rfl
  rw [h12] at hcontra
  exact Except.noConfusion hcontra

/-- C2 amended: for every input that passes the length check,
`extract_frame_number` fails with `FrameNumberParseError` iff the maximal
digit run starting at the field is empty (the field's first character is
not a digit) or overflows `std::size_t`; otherwise it succeeds with the
value of that digit run, which is not required to cover the whole
`W`-character field. -/
theorem extract_frame_number_digit_run (s : List Char) (W : Nat)
    (h : (extension_of s).length + W < s.length) :
    (extract_frame_number s W = .error .frameNumberParse ↔
      frame_field_digits s W = []
      ∨ size_t_max < digitsToNat (frame_field_digits s W))
    ∧ (frame_field_digits s W ≠ [] →
        digitsToNat (frame_field_digits s W) ≤ size_t_max →
        extract_frame_number s W
          = .ok (digitsToNat (frame_field_digits s W))) := by
  have hnot : ¬s.length ≤ (extension_of s).length + W := not_le.mpr h
  simp only [extract_frame_number, from_chars, frame_field_digits]
  rw [if_neg hnot]
  by_cases hemp :
      (s.drop (s.length - (extension_of s).length - W)).takeWhile Char.isDigit
        = []
  · simp [hemp]
  · by_cases hlt : size_t_max
        < digitsToNat
          ((s.drop (s.length - (extension_of s).length - W)).takeWhile
            Char.isDigit)
    · constructor
      · simp [List.isEmpty_iff, hemp, hlt]
      · intro _ hle
        exact absurd hlt (not_lt.mpr hle)
    · simp [List.isEmpty_iff, hemp, hlt]

/-- C2 amended witness: on `"frame12abc.png"` with width 5 the digit run
is `"12"` and parsing succeeds with its value. -/
theorem extract_frame_number_digit_run_witness :
    extract_frame_number "frame12abc.png".toList 5
      = .ok (digitsToNat (frame_field_digits "frame12abc.png".toList 5)) :=
  (extract_frame_number_digit_run "frame12abc.png".toList 5 (by decide)).2
    (by decide) (by decide)

/-- C3: on a valid name `<prefix><digits>.<ext>` whose `W` digits encode
`n` (leading zeros significant only for width), `extract_frame_number`
returns `n`. -/
theorem extract_frame_number_padded (pre ds rest : List Char) (W n : Nat)
    (hpre : pre ≠ []) (hds : ds ≠ []) (hW : ds.length = W)
    (hdig : ∀ c ∈ ds, c.isDigit)
    (hrd : '.' ∉ rest) (hrs : '/' ∉ rest)
    (hval : digitsToNat ds = n) (hn : n ≤ size_t_max) :
    extract_frame_number (pre ++ (ds ++ '.' :: rest)) W = .ok n := by
  have hext := extension_of_structured pre ds rest hds hdig hrd hrs
  have hplen : 0 < pre.length := List.length_pos.mpr hpre
  simp only [extract_frame_number]
  rw [hext]
  have hcond : ¬((pre ++ (ds ++ '.' :: rest)).length
      ≤ ('.' :: rest).length + W) := by
    simp only [List.length_append, List.length_cons, ← hW]
    omega
  rw [if_neg hcond]
  have hstart : (pre ++ (ds ++ '.' :: rest)).length - ('.' :: rest).length - W
      = pre.length := by
    simp only [List.length_append, List.length_cons, ← hW]
    omega
  rw [hstart, List.drop_left]
  have htk : (ds ++ '.' :: rest).takeWhile Char.isDigit = ds := by
    rw [List.takeWhile_append_of_pos hdig]
    rw [List.takeWhile_cons_of_neg (by decide)]
    simp
  simp only [from_chars]
  rw [htk]
  have hie : ¬(ds.isEmpty = true) := by
    cases ds with
    | nil => exact absurd rfl hds
    | cons c cs => simp
  rw [if_neg hie, hval, if_neg (not_lt.mpr hn)]

/-- C3 witness: `FrameNumberParser("frame00042.png", 5)` returns 42. -/
theorem extract_frame_number_padded_witness :
    "frame00042.png".toList
      = "frame".toList ++ ("00042".toList ++ '.' :: "png".toList)
    ∧ extract_frame_number "frame00042.png".toList 5 = .ok 42 := by
  refine ⟨by decide, ?_⟩
  rw [show "frame00042.png".toList
      = "frame".toList ++ ("00042".toList ++ '.' :: "png".toList) by decide]
  exact extract_frame_number_padded "frame".toList "00042".toList "png".toList
    5 42 (by decide) (by decide) (by decide) (by decide) (by decide)
    (by decide) (by decide) (by decide)

/-- C4: whenever a run over a directory succeeds, the resulting sequence
is non-decreasing in frame number, it is a permutation of the per-entry
analysis results, and the first tab-delimited fields of the output lines,
in file order, are exactly those sorted frame numbers. -/
theorem analyse_frames_sorted {Pix : Type}
    (gaussianBlur : List (List Pix) → List (List Pix))
    (cvtColorGray : List (List Pix) → List (List Nat))
    (laplacianRaw : List (List Nat) → List (List Int))
    (showDouble : Int → List Char)
    (entries : List (entry Pix)) (infos res : List frame_info)
    (hm : entries.mapM (analyse_frame gaussianBlur cvtColorGray laplacianRaw)
      = .ok infos)
    (hres : analyse_frames gaussianBlur cvtColorGray laplacianRaw
      (some entries) = .ok res)
    (hnl : ∀ f ∈ res, '\n' ∉ showDouble f.sharpness) :
    List.Sorted (· ≤ ·) (res.map frame_info.number)
    ∧ List.Perm (res.map frame_info.number) (infos.map frame_info.number)
    ∧ (splitLines (write_results showDouble res)).map
        (fun line => line.takeWhile (fun c => c ≠ '\t'))
      = (res.map frame_info.number).map natDigits := by
  have h2 : analyse_frames gaussianBlur cvtColorGray laplacianRaw
      (some entries)
      = .ok (List.insertionSort (fun lhs rhs => lhs.number ≤ rhs.number)
          infos) := by
    simp only [analyse_frames, hm]
    rfl
  have heq : List.insertionSort (fun lhs rhs => lhs.number ≤ rhs.number) infos
      = res := by
    injection h2.symm.trans hres
  haveI : IsTotal frame_info (fun lhs rhs => lhs.number ≤ rhs.number) :=
    ⟨fun a b => Nat.le_total a.number b.number⟩
  haveI : IsTrans frame_info (fun lhs rhs => lhs.number ≤ rhs.number) :=
    ⟨fun _ _ _ hab hbc => le_trans hab hbc⟩
  have hsorted :=
    List.sorted_insertionSort (fun lhs rhs : frame_info =>
      lhs.number ≤ rhs.number) infos
  have hperm :=
    List.perm_insertionSort (fun lhs rhs : frame_info =>
      lhs.number ≤ rhs.number) infos
  rw [heq] at hsorted hperm
  refine ⟨List.pairwise_map.mpr hsorted, hperm.map frame_info.number, ?_⟩
  rw [splitLines_write_results showDouble res hnl]
  simp only [List.map_map]
  refine List.map_congr_left ?_
  intro f _
  simp only [Function.comp_apply]
  exact takeWhile_first_field f.number (showDouble f.sharpness)

/-- C4 witness: entries enumerated as frame 2 then frame 1 yield a run
whose result is sorted ascending, is a permutation of the per-entry
results, and whose output lines start with the sorted frame numbers. -/
theorem analyse_frames_sorted_witness :
    List.Sorted (· ≤ ·)
      (([⟨1, 9⟩, ⟨2, 3⟩] : List frame_info).map frame_info.number)
    ∧ List.Perm (([⟨1, 9⟩, ⟨2, 3⟩] : List frame_info).map frame_info.number)
        (([⟨2, 3⟩, ⟨1, 9⟩] : List frame_info).map frame_info.number)
    ∧ (splitLines (write_results sampleShowDouble
          ([⟨1, 9⟩, ⟨2, 3⟩] : List frame_info))).map
        (fun line => line.takeWhile (fun c => c ≠ '\t'))
      = (([⟨1, 9⟩, ⟨2, 3⟩] : List frame_info).map frame_info.number).map
          natDigits :=
  analyse_frames_sorted sampleBlur sampleGray sampleLaplacian sampleShowDouble
    [⟨"f00002.png".toList, [[3]]⟩, ⟨"f00001.png".toList, [[9]]⟩]
    [⟨2, 3⟩, ⟨1, 9⟩] [⟨1, 9⟩, ⟨2, 3⟩] (by rfl) (by rfl) (by decide)

/-- C5: `write_results` emits exactly one line per frame, in the given
order, each of the form `number TAB sharpness NEWLINE`, and the empty
sequence yields an empty output. -/
theorem write_results_lines (showDouble : Int → List Char)
    (frames : List frame_info)
    (hnl : ∀ f ∈ frames, '\n' ∉ showDouble f.sharpness) :
    splitLines (write_results showDouble frames)
      = frames.map
          (fun f => natDigits f.number ++ '\t' :: showDouble f.sharpness)
    ∧ write_results showDouble ([] : List frame_info) = [] :=
  ⟨splitLines_write_results showDouble frames hnl, rfl⟩

/-- C5 witness: two frames give exactly their two lines in sequence
order, and the empty sequence gives empty output. -/
theorem write_results_lines_witness :
    splitLines (write_results sampleShowDouble
        ([⟨2, 7⟩, ⟨1, 5⟩] : List frame_info))
      = ([⟨2, 7⟩, ⟨1, 5⟩] : List frame_info).map
          (fun f => natDigits f.number ++ '\t' :: sampleShowDouble f.sharpness)
    ∧ write_results sampleShowDouble ([] : List frame_info) = [] :=
  write_results_lines sampleShowDouble [⟨2, 7⟩, ⟨1, 5⟩] (by decide)

/-- C6: on a path that is not an existing directory, `analyse_frames`
fails with `InvalidDirectoryError` and the full pipeline leaves the
output file exactly as it was (it is never opened). -/
theorem analyse_frames_invalid_directory {Pix : Type}
    (gaussianBlur : List (List Pix) → List (List Pix))
    (cvtColorGray : List (List Pix) → List (List Nat))
    (laplacianRaw : List (List Nat) → List (List Int))
    (showDouble : Int → List Char)
    (fs : FS Pix) (h : fs.dir = none) :
    analyse_frames gaussianBlur cvtColorGray laplacianRaw fs.dir
      = .error .invalidDirectory
    ∧ main_run gaussianBlur cvtColorGray laplacianRaw showDouble fs
      = (.error .invalidDirectory, fs.outFile) := by
  have h1 : analyse_frames gaussianBlur cvtColorGray laplacianRaw fs.dir
      = .error .invalidDirectory := by
    rw [h]
    rfl
  refine ⟨h1, ?_⟩
  simp only [main_run, h1]

/-- C6 witness: a run on a missing directory with pre-existing output
content `"old"` reports `InvalidDirectoryError` and leaves the content
untouched. -/
theorem analyse_frames_invalid_directory_witness :
    analyse_frames sampleBlur sampleGray sampleLaplacian
      (FS.dir ⟨none, true, some "old".toList⟩) = .error .invalidDirectory
    ∧ main_run sampleBlur sampleGray sampleLaplacian sampleShowDouble
        ⟨none, true, some "old".toList⟩
      = (.error .invalidDirectory, some "old".toList) :=
  analyse_frames_invalid_directory sampleBlur sampleGray sampleLaplacian
    sampleShowDouble ⟨none, true, some "old".toList⟩ (by rfl)

/-- C7: for every decoded image, the sharpness score is the maximum value
of the signed Laplacian response grid produced by blur, grayscale and
Laplacian filtering: it is an entry of the grid and an upper bound of all
entries (so it is the signed maximum, not a maximum of absolute values). -/
theorem calculate_sharpness_grid_max {Pix : Type}
    (gaussianBlur : List (List Pix) → List (List Pix))
    (cvtColorGray : List (List Pix) → List (List Nat))
    (laplacianRaw : List (List Nat) → List (List Int))
    (image : List (List Pix))
    (hne : (laplacian16S laplacianRaw
        (cvtColorGray (gaussianBlur image))).flatten ≠ []) :
    calculate_sharpness gaussianBlur cvtColorGray laplacianRaw image
      ∈ (laplacian16S laplacianRaw (cvtColorGray (gaussianBlur image))).flatten
    ∧ ∀ v ∈ (laplacian16S laplacianRaw
        (cvtColorGray (gaussianBlur image))).flatten,
        v ≤ calculate_sharpness gaussianBlur cvtColorGray laplacianRaw image := by
  cases hfl : (laplacian16S laplacianRaw
      (cvtColorGray (gaussianBlur image))).flatten with
  | nil => exact absurd hfl hne
  | cons v vs =>
      have hcs : calculate_sharpness gaussianBlur cvtColorGray laplacianRaw
          image = vs.foldl max v := by
        simp only [calculate_sharpness, minMaxLoc]
        rw [hfl]
      rw [hcs]
      exact ⟨foldl_max_mem vs v, foldl_max_le vs v⟩

/-- C7 witness: on a one-pixel image with sample operators the score is
the unique grid entry and bounds every entry. -/
theorem calculate_sharpness_grid_max_witness :
    calculate_sharpness sampleBlur sampleGray sampleLaplacian [[5]]
      ∈ (laplacian16S sampleLaplacian (sampleGray (sampleBlur [[5]]))).flatten
    ∧ ∀ v ∈ (laplacian16S sampleLaplacian
        (sampleGray (sampleBlur [[5]]))).flatten,
        v ≤ calculate_sharpness sampleBlur sampleGray sampleLaplacian [[5]] :=
  calculate_sharpness_grid_max sampleBlur sampleGray sampleLaplacian [[5]]
    (by decide)

/-- C8: the sharpness computation is deterministic: two runs on an
identical decoded pixel grid (under the same library operators) yield
the identical score; the embedding is state-free, matching the absence
of side effects in the source. -/
theorem calculate_sharpness_deterministic {Pix : Type}
    (gaussianBlur : List (List Pix) → List (List Pix))
    (cvtColorGray : List (List Pix) → List (List Nat))
    (laplacianRaw : List (List Nat) → List (List Int))
    (image1 image2 : List (List Pix)) (h : image1 = image2) :
    calculate_sharpness gaussianBlur cvtColorGray laplacianRaw image1
      = calculate_sharpness gaussianBlur cvtColorGray laplacianRaw image2 := by
  rw [h]

/-- C8 witness: two runs on the same concrete grid agree. -/
theorem calculate_sharpness_deterministic_witness :
    calculate_sharpness sampleBlur sampleGray sampleLaplacian [[3, 1], [2, 4]]
      = calculate_sharpness sampleBlur sampleGray sampleLaplacian
          [[3, 1], [2, 4]] :=
  calculate_sharpness_deterministic sampleBlur sampleGray sampleLaplacian
    [[3, 1], [2, 4]] [[3, 1], [2, 4]] rfl

/-- C9: in `analyse_frame` the frame number is extracted before the image
is decoded: when the name fails extraction, the run fails with exactly
that name/parse error, and the result does not depend on the image data
at all (in particular no `ImageDecodeError` can surface). -/
theorem analyse_frame_name_error_first {Pix : Type}
    (gaussianBlur : List (List Pix) → List (List Pix))
    (cvtColorGray : List (List Pix) → List (List Nat))
    (laplacianRaw : List (List Nat) → List (List Int))
    (p : List Char) (err : RunError) (image1 image2 : List (List Pix))
    (h : extract_frame_number p 5 = .error err) :
    analyse_frame gaussianBlur cvtColorGray laplacianRaw ⟨p, image1⟩
      = .error err
    ∧ analyse_frame gaussianBlur cvtColorGray laplacianRaw ⟨p, image1⟩
      = analyse_frame gaussianBlur cvtColorGray laplacianRaw ⟨p, image2⟩ := by
  have h1 : ∀ img : List (List Pix),
      analyse_frame gaussianBlur cvtColorGray laplacianRaw ⟨p, img⟩
        = .error err := by
    intro img
    simp only [analyse_frame]
    rw [h]
    rfl
  exact ⟨h1 image1, (h1 image1).trans (h1 image2).symm⟩

/-- C9 witness: a too-short name fails with the name error even though
the entry's image data (a decodable non-empty grid) differs. -/
theorem analyse_frame_name_error_first_witness :
    analyse_frame sampleBlur sampleGray sampleLaplacian
      ⟨"x.png".toList, ([] : List (List Nat))⟩ = .error .invalidFileName
    ∧ analyse_frame sampleBlur sampleGray sampleLaplacian
        ⟨"x.png".toList, ([] : List (List Nat))⟩
      = analyse_frame sampleBlur sampleGray sampleLaplacian
          ⟨"x.png".toList, [[7]]⟩ :=
  analyse_frame_name_error_first sampleBlur sampleGray sampleLaplacian
    "x.png".toList RunError.invalidFileName [] [[7]] (by rfl)

/-- C10: because the Laplacian response is stored with 16-bit signed
saturation, the sharpness score always lies in `[-32768, 32767]` (as an
exact integer value); in particular it can never exceed 32767. -/
theorem calculate_sharpness_int16_range {Pix : Type}
    (gaussianBlur : List (List Pix) → List (List Pix))
    (cvtColorGray : List (List Pix) → List (List Nat))
    (laplacianRaw : List (List Nat) → List (List Int))
    (image : List (List Pix)) :
    -32768 ≤ calculate_sharpness gaussianBlur cvtColorGray laplacianRaw image
    ∧ calculate_sharpness gaussianBlur cvtColorGray laplacianRaw image
      ≤ 32767 := by
  cases hfl : (laplacian16S laplacianRaw
      (cvtColorGray (gaussianBlur image))).flatten with
  | nil =>
      have hcs : calculate_sharpness gaussianBlur cvtColorGray laplacianRaw
          image = 0 := by
        simp only [calculate_sharpness, minMaxLoc]
        rw [hfl]
      rw [hcs]
      exact ⟨by decide, by decide⟩
  | cons v vs =>
      have hcs : calculate_sharpness gaussianBlur cvtColorGray laplacianRaw
          image = vs.foldl max v := by
        simp only [calculate_sharpness, minMaxLoc]
        rw [hfl]
      have hmem : calculate_sharpness gaussianBlur cvtColorGray laplacianRaw
          image ∈ (laplacian16S laplacianRaw
            (cvtColorGray (gaussianBlur image))).flatten := by
        rw [hcs, hfl]
        exact foldl_max_mem vs v
      obtain ⟨u, hu⟩ :=
        mem_laplacian16S laplacianRaw (cvtColorGray (gaussianBlur image)) _ hmem
      rw [hu]
      exact saturate16_range u
